import Mathlib

/-!
Verification of the color-extractor core: a shallow embedding of
`src/color_extractor.py` together with the spec-modelled clustering engine.

The summarizer (`extract_colors` lines 46-65, `rgb_to_hex` lines 67-69) and
the `ColorExtractor` object are translated from the source.  The clustering
step itself is performed in the source by an external library call
(`KMeans(n_clusters=..., random_state=42, n_init=10).fit(pixels)`), whose code
is not part of this repository; it is modelled from the spec (§4.1, §7).

Numeric model: channel arithmetic is carried out in `ℚ` (exact rationals)
in place of the source's IEEE doubles; frequencies `count / n * 100` and
centroid means are exact in this model.
-/

namespace ColorExtractorRepo

/-- A pixel: an ordered triple of 8-bit channel samples (red, green, blue). -/
abbrev Pixel := Nat × Nat × Nat

/-- A floating-point centroid, modelled with exact rationals per channel. -/
abbrev Vec3 := ℚ × ℚ × ℚ

/-- Cast a pixel to a rational channel vector. -/
def toVec3 (p : Pixel) : Vec3 := ((p.1 : ℚ), (p.2.1 : ℚ), (p.2.2 : ℚ))

/-- Componentwise addition of channel vectors. -/
def addV (a b : Vec3) : Vec3 := (a.1 + b.1, a.2.1 + b.2.1, a.2.2 + b.2.2)

/-- Sum of a list of channel vectors. -/
def sumV (l : List Vec3) : Vec3 := l.foldr addV (0, 0, 0)

/-- Scalar multiplication of a channel vector. -/
def smulV (q : ℚ) (v : Vec3) : Vec3 := (q * v.1, q * v.2.1, q * v.2.2)

/-- Squared Euclidean distance between two channel vectors (spec §4.1 step 2:
sum of squared per-channel differences). -/
def dist2 (a b : Vec3) : ℚ :=
  (a.1 - b.1) ^ 2 + (a.2.1 - b.2.1) ^ 2 + (a.2.2 - b.2.2) ^ 2

/-- Modelled from the spec (§7): the typed error kinds surfaced by the core
clustering operation, which in the source is the external `KMeans` library
call and hence absent from the repository. -/
inductive ClusterError where
  | EmptyInput
  | InvalidClusterCount
  | DegenerateReseedFailure
deriving DecidableEq

/-- Modelled from the spec (§4.1 step 2): index of the centroid nearest to
`p`, ties resolving to the lowest cluster index.  The fold keeps the current
best (index, centroid) pair and replaces it only on a strictly smaller
squared distance. -/
def nearestIdx (cs : List Vec3) (p : Vec3) : Nat :=
  (cs.enum.foldl
    (fun best ic => if dist2 p ic.2 < dist2 p best.2 then ic else best)
    (0, cs.headD p)).1

/-- Modelled from the spec (§4.1 step 2): the assignment step maps every
pixel to the index of its nearest centroid. -/
def assignStep (cs : List Vec3) (pixels : List Pixel) : List Nat :=
  pixels.map (fun p => nearestIdx cs (toVec3 p))

/-- The pixels currently assigned to cluster `i`. -/
def assignedPixels (pixels : List Pixel) (labels : List Nat) (i : Nat) :
    List Pixel :=
  ((pixels.zip labels).filter (fun pl => pl.2 == i)).map (fun pl => pl.1)

/-- Modelled from the spec (§4.1 step 3): the arithmetic mean, per channel,
of the pixels assigned to cluster `i`. -/
def meanOf (pixels : List Pixel) (labels : List Nat) (i : Nat) : Vec3 :=
  smulV (1 / ((assignedPixels pixels labels i).length : ℚ))
    (sumV ((assignedPixels pixels labels i).map toVec3))

/-- The updated centroids of the clusters that received at least one pixel. -/
def nonEmptyMeans (pixels : List Pixel) (labels : List Nat) (k : Nat) :
    List Vec3 :=
  (List.range k).filterMap
    (fun i => if 0 < labels.count i then some (meanOf pixels labels i) else none)

/-- Modelled from the spec (§4.1 step 3, §7): the reseeding rule for an empty
cluster picks the first pixel whose color differs from every non-empty
cluster's centroid; `none` when no such pixel remains. -/
def reseedCandidate (pixels : List Pixel) (ne : List Vec3) : Option Vec3 :=
  (pixels.map toVec3).find? (fun v => decide (v ∉ ne))

/-- The new centroid of cluster `i`: the mean of its assigned pixels when it
is non-empty, otherwise a reseeded pixel; `DegenerateReseedFailure` when
reseeding finds no remaining distinct pixel (spec §7). -/
def newCentroid (pixels : List Pixel) (labels : List Nat) (ne : List Vec3)
    (i : Nat) : Except ClusterError Vec3 :=
  if 0 < labels.count i then .ok (meanOf pixels labels i)
  else
    match reseedCandidate pixels ne with
    | some v => .ok v
    | none => .error .DegenerateReseedFailure

/-- Compute the new centroid of every cluster index in the list, failing on
the first reseed failure. -/
def centroidList (pixels : List Pixel) (labels : List Nat) (ne : List Vec3) :
    List Nat → Except ClusterError (List Vec3)
  | [] => .ok []
  | i :: is =>
    match newCentroid pixels labels ne i, centroidList pixels labels ne is with
    | .error e, _ => .error e
    | .ok _, .error e => .error e
    | .ok c, .ok cs => .ok (c :: cs)

/-- Modelled from the spec (§4.1 step 3): the update step recomputes all `k`
centroids, reseeding empty clusters. -/
def updateStep (pixels : List Pixel) (labels : List Nat)
    (cs : List Vec3) : Except ClusterError (List Vec3) :=
  centroidList pixels labels (nonEmptyMeans pixels labels cs.length)
    (List.range cs.length)

/-- Modelled from the spec (§4.1 step 1): seeded deterministic selection of
`k` pixel positions — positions `(seed + i) % n` for `i < k`, which are
distinct whenever `k ≤ n`.  The spec admits any selection rule that is fully
determined by `seed`. -/
def initCentroids (pixels : List Pixel) (k : Nat) (seed : Nat) : List Vec3 :=
  (List.range k).map
    (fun i => toVec3 (pixels.getD ((seed + i) % pixels.length) (0, 0, 0)))

/-- Modelled from the spec (§4.1 step 4): the default maximum iteration
bound. -/
def maxIterations : Nat := 300

/-- Modelled from the spec (§4.1 steps 2-4): the Lloyd iteration.  `prev` is
the assignment of the previous iteration and `fuel` the remaining update
steps; the loop stops when the assignment is unchanged (convergence (a)) or
the fuel — the iteration bound (b) — runs out.  The epsilon-movement test
(c) is subsumed here by the exact fixed-point test: a centroid list that
stops moving reproduces its assignment and triggers (a). -/
def lloydGo (pixels : List Pixel) :
    Nat → List Vec3 → List Nat → Except ClusterError (List Vec3 × List Nat)
  | 0, cs, _prev => .ok (cs, assignStep cs pixels)
  | fuel + 1, cs, prev =>
    if assignStep cs pixels = prev then .ok (cs, assignStep cs pixels)
    else
      match updateStep pixels (assignStep cs pixels) cs with
      | .error e => .error e
      | .ok cs2 => lloydGo pixels fuel cs2 (assignStep cs pixels)

/-- Modelled from the spec (§4.1, §7): the clustering contract
`cluster(pixels, k, seed) -> (centroids, assignment)`.  Validation first:
`EmptyInput` on an empty pixel sequence, `InvalidClusterCount` when `k < 1`
or `k` exceeds the pixel count; then seeded initialization followed by the
Lloyd iteration. -/
def cluster (pixels : List Pixel) (k : Nat) (seed : Nat) :
    Except ClusterError (List Vec3 × List Nat) :=
  if pixels.isEmpty then .error .EmptyInput
  else if k < 1 ∨ pixels.length < k then .error .InvalidClusterCount
  else
    match updateStep pixels (assignStep (initCentroids pixels k seed) pixels)
        (initCentroids pixels k seed) with
    | .error e => .error e
    | .ok cs1 =>
      lloydGo pixels (maxIterations - 1) cs1
        (assignStep (initCentroids pixels k seed) pixels)

/-- Source line 46, `kmeans.cluster_centers_.astype(int)`: numpy's
`astype(int)` truncates toward zero; on the nonnegative channel values
arising here (means and reseeds of pixels in `[0,255]`) truncation toward
zero coincides with the floor, and the result is a nonnegative integer,
rendered as a natural number per channel. -/
def centroidToIntColor (c : Vec3) : Pixel :=
  (⌊c.1⌋.toNat, ⌊c.2.1⌋.toNat, ⌊c.2.2⌋.toNat)

/-- Source lines 56-60: one entry of `color_info`.  The `idx` field records
the cluster index `i` from `enumerate(colors)` (the key used into
`label_counts`); the Python dict itself keeps only `rgb`, `hex` and
`frequency`, but the spec's tie-break property is stated in terms of the
original cluster index, so the record carries it. -/
structure ColorInfo where
  idx : Nat
  rgb : Pixel
  hex : String
  frequency : ℚ
deriving DecidableEq

/-- Source line 69, the `{value:02x}` format field: lowercase hexadecimal
digits, zero-padded on the left to width two. -/
def format02x (n : Nat) : List Char :=
  let ds := Nat.toDigits 16 n
  List.replicate (2 - ds.length) '0' ++ ds

/-- Source lines 67-69, `rgb_to_hex`: `f"#{r:02x}{g:02x}{b:02x}"`. -/
def rgb_to_hex (rgb : Pixel) : String :=
  String.mk ('#' :: (format02x rgb.1 ++ format02x rgb.2.1 ++ format02x rgb.2.2))

/-- Source lines 50-60: `label_counts = Counter(labels)` and the
`color_info` list built by `for i, color in enumerate(colors)`, with
`frequency = label_counts[i] / len(labels) * 100`. -/
def colorInfoList (colors : List Pixel) (labels : List Nat) : List ColorInfo :=
  colors.enum.map
    (fun ic =>
      { idx := ic.1
        rgb := ic.2
        hex := rgb_to_hex ic.2
        frequency := (labels.count ic.1 : ℚ) / (labels.length : ℚ) * 100 })

/-- Source line 63, `color_info.sort(key=lambda x: x['frequency'],
reverse=True)`: Python's list sort is stable, so with `reverse=True` the
result is the stable descending sort by frequency.  Stable insertion:
`x` goes in front of the first element whose frequency does not exceed
`x`'s. -/
def insertByFreq (x : ColorInfo) : List ColorInfo → List ColorInfo
  | [] => [x]
  | y :: ys =>
    if y.frequency ≤ x.frequency then x :: y :: ys else y :: insertByFreq x ys

/-- The stable descending sort by frequency (source line 63). -/
def sortByFreqDesc (l : List ColorInfo) : List ColorInfo :=
  l.foldr insertByFreq []

/-- Source lines 50-65: the summarizer body of `extract_colors`, from the
integer colors and the labels to the sorted `color_info` list. -/
def extractColorsCore (colors : List Pixel) (labels : List Nat) :
    List ColorInfo :=
  sortByFreqDesc (colorInfoList colors labels)

/-- Source lines 46-65: the summarizer applied to the raw clustering output
(`cluster_centers_` and `labels_`). -/
def summarize (cs : List Vec3) (labels : List Nat) : List ColorInfo :=
  extractColorsCore (cs.map centroidToIntColor) labels

/-- The clustering pipeline: `cluster` followed by `summarize` (spec §6). -/
def extractPalette (pixels : List Pixel) (k : Nat) (seed : Nat) :
    Except ClusterError (List ColorInfo) :=
  (cluster pixels k seed).map (fun r => summarize r.1 r.2)

/-- Source lines 10-13: the `ColorExtractor` object's fields.  The `image`
field holds the loaded image's pixels (the source's PIL image, which
`extract_colors` reshapes to a flat pixel list) or `none` before
`load_image` succeeds. -/
structure ColorExtractor where
  image_path : String
  num_colors : Nat
  image : Option (List Pixel)
deriving DecidableEq

/-- Source lines 29-65, `extract_colors`: returns `[]` when no image is
loaded (lines 31-33); otherwise runs the clustering (line 42 fixes
`random_state=42`) and the summarizer on the image's pixels.  The method
assigns to no field of `self`, so the object is returned unchanged. -/
def ColorExtractor.extract_colors (self : ColorExtractor) :
    Except ClusterError (List ColorInfo) × ColorExtractor :=
  match self.image with
  | none => (.ok [], self)
  | some pixels => (extractPalette pixels self.num_colors 42, self)

/-- The spec's words (§4.2): rounding to the nearest integer with ties going
half away from zero. -/
def roundHalfAwayFromZero (q : ℚ) : ℤ :=
  if 0 ≤ q then ⌊q + 1 / 2⌋ else -⌊-q + 1 / 2⌋

/-- The spec's words (§4.2): rounding to the nearest integer with ties going
to the even neighbour. -/
def roundHalfToEven (q : ℚ) : ℤ :=
  if q - ⌊q⌋ < 1 / 2 then ⌊q⌋
  else if 1 / 2 < q - ⌊q⌋ then ⌊q⌋ + 1
  else if 2 ∣ ⌊q⌋ then ⌊q⌋ else ⌊q⌋ + 1

/-- Value of one lowercase hexadecimal digit character. -/
def hexCharVal (c : Char) : Option Nat :=
  if '0' ≤ c ∧ c ≤ '9' then some (c.toNat - 48)
  else if 'a' ≤ c ∧ c ≤ 'f' then some (c.toNat - 87)
  else none

/-- Whether a character is a lowercase hexadecimal digit (`[0-9a-f]`). -/
def isLowerHexDigit (c : Char) : Bool :=
  ('0' ≤ c && c ≤ '9') || ('a' ≤ c && c ≤ 'f')

/-- Whether a string matches the pattern `#[0-9a-f]{6}` (spec §6). -/
def isHexPattern (s : String) : Bool :=
  match s.data with
  | '#' :: rest => rest.length == 6 && rest.all isLowerHexDigit
  | _ => false

/-- Parse a `#rrggbb` string back into an RGB triple. -/
def parseHexColor (s : String) : Option Pixel :=
  match s.data with
  | ['#', c1, c2, c3, c4, c5, c6] =>
    match hexCharVal c1, hexCharVal c2, hexCharVal c3,
        hexCharVal c4, hexCharVal c5, hexCharVal c6 with
    | some v1, some v2, some v3, some v4, some v5, some v6 =>
      some (v1 * 16 + v2, v3 * 16 + v4, v5 * 16 + v6)
    | _, _, _, _, _, _ => none
  | _ => none

/-- The number of distinct pixel colors in a pixel sequence (spec §8's
`distinct_pixel_count`). -/
def distinctColorCount (pixels : List Pixel) : Nat :=
  pixels.dedup.length

/-- Sum of the `frequency` fields of a record list. -/
def sumFreq (l : List ColorInfo) : ℚ :=
  (l.map ColorInfo.frequency).sum

/-- Decidable equality of `Except` values, for evaluating the clustering
operation on concrete inputs. -/
instance {ε α : Type _} [DecidableEq ε] [DecidableEq α] :
    DecidableEq (Except ε α)
  | .ok a, .ok b =>
    match decEq a b with
    | isTrue h => isTrue (h ▸ rfl)
    | isFalse h => isFalse (fun hh => h (Except.ok.inj hh))
  | .ok _, .error _ => isFalse Except.noConfusion
  | .error _, .ok _ => isFalse Except.noConfusion
  | .error a, .error b =>
    match decEq a b with
    | isTrue h => isTrue (h ▸ rfl)
    | isFalse h => isFalse (fun hh => h (Except.error.inj hh))

/-! ## Error-path lemmas for the clustering operation -/

theorem newCentroid_error {pixels : List Pixel} {labels : List Nat}
    {ne : List Vec3} {i : Nat} {e : ClusterError}
    (h : newCentroid pixels labels ne i = .error e) :
    e = .DegenerateReseedFailure := by
  unfold newCentroid at h
  split at h
  · exact absurd h (by simp)
  · cases hr : reseedCandidate pixels ne <;> rw [hr] at h
    · exact (Except.error.injEq _ _).mp h |>.symm
    · exact absurd h (by simp)

theorem centroidList_error {pixels : List Pixel} {labels : List Nat}
    {ne : List Vec3} {e : ClusterError} :
    ∀ {is : List Nat}, centroidList pixels labels ne is = .error e →
      e = .DegenerateReseedFailure := by
  intro is
  induction is with
  | nil => intro h; exact absurd h (by simp [centroidList])
  | cons i is ih =>
    intro h
    unfold centroidList at h
    cases hn : newCentroid pixels labels ne i <;> rw [hn] at h
    · cases h; exact newCentroid_error hn
    · cases hc : centroidList pixels labels ne is <;> rw [hc] at h
      · cases h; exact ih hc
      · exact absurd h (by simp)

theorem updateStep_error {pixels : List Pixel} {labels : List Nat}
    {cs : List Vec3} {e : ClusterError}
    (h : updateStep pixels labels cs = .error e) :
    e = .DegenerateReseedFailure :=
  centroidList_error h

theorem lloydGo_error {pixels : List Pixel} {e : ClusterError} :
    ∀ {fuel : Nat} {cs : List Vec3} {prev : List Nat},
      lloydGo pixels fuel cs prev = .error e →
      e = .DegenerateReseedFailure := by
  intro fuel
  induction fuel with
  | zero => intro cs prev h; exact absurd h (by simp [lloydGo])
  | succ fuel ih =>
    intro cs prev h
    simp only [lloydGo] at h
    split at h
    · exact absurd h (by simp)
    · cases hu : updateStep pixels (assignStep cs pixels) cs <;>
        simp only [hu] at h
      · cases h; exact updateStep_error hu
      · exact ih h

theorem cluster_empty {k seed : Nat} :
    cluster [] k seed = .error .EmptyInput := rfl

theorem cluster_invalid {pixels : List Pixel} {k seed : Nat}
    (hne : pixels ≠ []) (hk : k = 0 ∨ pixels.length < k) :
    cluster pixels k seed = .error .InvalidClusterCount := by
  unfold cluster
  rw [if_neg, if_pos]
  · rcases hk with hk | hk
    · exact Or.inl (by omega)
    · exact Or.inr hk
  · simp [List.isEmpty_iff, hne]

theorem cluster_error_valid {pixels : List Pixel} {k seed : Nat}
    {e : ClusterError} (hne : pixels ≠ []) (hk1 : 1 ≤ k)
    (hk2 : k ≤ pixels.length) (h : cluster pixels k seed = .error e) :
    e = .DegenerateReseedFailure := by
  unfold cluster at h
  rw [if_neg (by simp [List.isEmpty_iff, hne]), if_neg (by omega)] at h
  cases hu : updateStep pixels (assignStep (initCentroids pixels k seed) pixels)
      (initCentroids pixels k seed) <;> simp only [hu] at h
  · cases h; exact updateStep_error hu
  · exact lloydGo_error h

/-! ## Claim theorems: error contract, determinism, object state -/

/-- C1 (amended): `EmptyInput` on an empty pixel sequence;
`InvalidClusterCount` when `k < 1` or `k` exceeds the pixel count; and on
every valid input either a complete `(centroids, assignment)` result or the
typed error `DegenerateReseedFailure` (when an empty cluster cannot be
reseeded with a remaining distinct pixel), never a partial result. -/
theorem cluster_error_contract (pixels : List Pixel) (k seed : Nat) :
    (pixels = [] → cluster pixels k seed = .error .EmptyInput) ∧
    (pixels ≠ [] → (k < 1 ∨ pixels.length < k) →
      cluster pixels k seed = .error .InvalidClusterCount) ∧
    (pixels ≠ [] → 1 ≤ k → k ≤ pixels.length →
      (∃ cs ls, cluster pixels k seed = .ok (cs, ls)) ∨
      cluster pixels k seed = .error .DegenerateReseedFailure) := by
  refine ⟨fun h => by subst h; exact cluster_empty, fun hne hk => ?_,
    fun hne hk1 hk2 => ?_⟩
  · exact cluster_invalid hne (by omega)
  · cases hc : cluster pixels k seed with
    | ok r => exact Or.inl ⟨r.1, r.2, rfl⟩
    | error e =>
      have he := cluster_error_valid hne hk1 hk2 hc
      subst he
      exact Or.inr rfl

/-- C1 witness: the amended contract applied at concrete inputs. -/
theorem cluster_error_contract_witness :
    cluster [] 1 0 = .error .EmptyInput ∧
    cluster [((1:Nat),2,3)] 0 0 = .error .InvalidClusterCount ∧
    ((∃ cs ls, cluster [((1:Nat),2,3)] 1 0 = .ok (cs, ls)) ∨
      cluster [((1:Nat),2,3)] 1 0 = .error .DegenerateReseedFailure) :=
  ⟨(cluster_error_contract [] 1 0).1 rfl,
    (cluster_error_contract [((1:Nat),2,3)] 0 0).2.1 (by decide) (by decide),
    (cluster_error_contract [((1:Nat),2,3)] 1 0).2.2 (by decide) (by decide)
      (by decide)⟩

/-- C1 counterexample: a valid input (two pixels, `k = 2`, within the pixel
count) on which the clustering operation fails with
`DegenerateReseedFailure` rather than returning a result — refuting "in
every other case it returns a result". -/
theorem cluster_degenerate_counterexample :
    cluster [((0:Nat),0,0), ((0:Nat),0,0)] 2 0 =
      .error .DegenerateReseedFailure ∧
    1 ≤ 2 ∧ 2 ≤ [((0:Nat),0,0), ((0:Nat),0,0)].length := by
  refine ⟨?_, by decide, by decide⟩
  norm_num [cluster, initCentroids, assignStep, nearestIdx, toVec3, dist2,
    updateStep, nonEmptyMeans, meanOf, assignedPixels, sumV, addV, smulV,
    reseedCandidate, newCentroid, centroidList, lloydGo, List.enum,
    List.enumFrom, List.range, List.range.loop]

/-- C2: for a fixed pixel sequence, cluster count and seed, two runs of
clustering followed by summarization produce bit-identical record lists:
the output is a function of exactly those three inputs. -/
theorem extractPalette_deterministic (pixels : List Pixel) (k seed : Nat)
    (out1 out2 : Except ClusterError (List ColorInfo))
    (h1 : extractPalette pixels k seed = out1)
    (h2 : extractPalette pixels k seed = out2) : out1 = out2 :=
  h1 ▸ h2 ▸ rfl

/-- C2 witness: determinism applied at a concrete input. -/
theorem extractPalette_deterministic_witness :
    extractPalette [((0:Nat),0,0), ((9:Nat),9,9)] 1 7 =
      extractPalette [((0:Nat),0,0), ((9:Nat),9,9)] 1 7 :=
  extractPalette_deterministic [((0:Nat),0,0), ((9:Nat),9,9)] 1 7 _ _ rfl rfl

/-- C9: calling `extract_colors` on an extractor whose `image` field is
unset returns the empty list (no error, no records) and leaves the object
unchanged. -/
theorem extract_colors_no_image (s : ColorExtractor) (h : s.image = none) :
    s.extract_colors = (.ok [], s) := by
  unfold ColorExtractor.extract_colors
  rw [h]

/-- C9 witness: the no-image behaviour at a concrete extractor. -/
theorem extract_colors_no_image_witness :
    (ColorExtractor.mk "img.png" 5 none).extract_colors =
      (.ok [], ColorExtractor.mk "img.png" 5 none) :=
  extract_colors_no_image (ColorExtractor.mk "img.png" 5 none) rfl

/-- C10: `extract_colors` leaves every field of the `ColorExtractor`
unchanged — the state after the call equals the state before. -/
theorem extract_colors_frame (s : ColorExtractor) :
    (s.extract_colors).2 = s := by
  unfold ColorExtractor.extract_colors
  cases s.image <;> rfl

/-! ## Permutation and stability of the frequency sort -/

theorem insertByFreq_perm (x : ColorInfo) (l : List ColorInfo) :
    (insertByFreq x l).Perm (x :: l) := by
  induction l with
  | nil => exact List.Perm.refl _
  | cons y ys ih =>
    unfold insertByFreq
    split
    · exact List.Perm.refl _
    · exact (ih.cons y).trans (List.Perm.swap x y ys)

theorem sortByFreqDesc_cons (x : ColorInfo) (l : List ColorInfo) :
    sortByFreqDesc (x :: l) = insertByFreq x (sortByFreqDesc l) := rfl

theorem sortByFreqDesc_perm (l : List ColorInfo) :
    (sortByFreqDesc l).Perm l := by
  induction l with
  | nil => exact List.Perm.refl _
  | cons x xs ih => exact (insertByFreq_perm x _).trans (ih.cons x)

/-- The ordering invariant of the sorted output: non-increasing frequency,
with equal frequencies in ascending original cluster index. -/
def recOrder (a b : ColorInfo) : Prop :=
  b.frequency ≤ a.frequency ∧ (a.frequency = b.frequency → a.idx < b.idx)

theorem pairwise_insertByFreq {x : ColorInfo} {l : List ColorInfo}
    (hl : l.Pairwise recOrder)
    (hx : ∀ y ∈ l, x.frequency = y.frequency → x.idx < y.idx) :
    (insertByFreq x l).Pairwise recOrder := by
  induction l with
  | nil => simp [insertByFreq, recOrder]
  | cons y ys ih =>
    rcases List.pairwise_cons.mp hl with ⟨hy, hys⟩
    unfold insertByFreq
    split
    · rename_i hle
      refine List.pairwise_cons.mpr ⟨?_, hl⟩
      intro z hz
      rcases List.mem_cons.mp hz with rfl | hz
      · exact ⟨hle, hx z (List.mem_cons_self _ _)⟩
      · exact ⟨le_trans (hy z hz).1 hle,
          fun he => hx z (List.mem_cons_of_mem _ hz) he⟩
    · rename_i hgt
      have hlt : x.frequency < y.frequency := lt_of_not_le hgt
      refine List.pairwise_cons.mpr
        ⟨?_, ih hys (fun z hz he => hx z (List.mem_cons_of_mem _ hz) he)⟩
      intro z hz
      rcases List.mem_cons.mp ((insertByFreq_perm x ys).mem_iff.mp hz) with
        rfl | hz'
      · exact ⟨le_of_lt hlt, fun he => absurd he.symm (ne_of_lt hlt)⟩
      · exact hy z hz'

theorem pairwise_sortByFreqDesc {l : List ColorInfo}
    (h : l.Pairwise (fun a b => a.idx < b.idx)) :
    (sortByFreqDesc l).Pairwise recOrder := by
  induction l with
  | nil => simp [sortByFreqDesc]
  | cons x xs ih =>
    rcases List.pairwise_cons.mp h with ⟨hx, hxs⟩
    rw [sortByFreqDesc_cons]
    exact pairwise_insertByFreq (ih hxs)
      (fun y hy _ => hx y ((sortByFreqDesc_perm xs).mem_iff.mp hy))

theorem pairwise_fst_enumFrom (n : Nat) (l : List Pixel) :
    (l.enumFrom n).Pairwise (fun a b => a.1 < b.1) := by
  induction l generalizing n with
  | nil => simp
  | cons a t ih =>
    refine List.pairwise_cons.mpr ⟨?_, ih (n + 1)⟩
    rintro ⟨i, y⟩ hy
    have hle := (List.mk_mem_enumFrom_iff_le_and_getElem?_sub.mp hy).1
    show n < i
    omega

theorem pairwise_idx_colorInfoList (colors : List Pixel) (labels : List Nat) :
    (colorInfoList colors labels).Pairwise (fun a b => a.idx < b.idx) := by
  unfold colorInfoList
  refine List.pairwise_map.mpr ?_
  exact (pairwise_fst_enumFrom 0 colors).imp (fun hab => hab)

/-! ## Length lemmas for the pipeline -/

theorem centroidList_ok_length {pixels : List Pixel} {labels : List Nat}
    {ne : List Vec3} :
    ∀ {is : List Nat} {cs : List Vec3},
      centroidList pixels labels ne is = .ok cs → cs.length = is.length := by
  intro is
  induction is with
  | nil =>
    intro cs h
    simp only [centroidList, Except.ok.injEq] at h
    rw [← h]
    rfl
  | cons i is ih =>
    intro cs h
    unfold centroidList at h
    cases hn : newCentroid pixels labels ne i <;> rw [hn] at h
    · exact absurd h (by simp)
    · cases hc : centroidList pixels labels ne is <;> rw [hc] at h
      · exact absurd h (by simp)
      · injection h with h
        rw [← h]
        simp [ih hc]

theorem updateStep_ok_length {pixels : List Pixel} {labels : List Nat}
    {cs cs' : List Vec3} (h : updateStep pixels labels cs = .ok cs') :
    cs'.length = cs.length := by
  have hl := centroidList_ok_length h
  simpa using hl

theorem initCentroids_length (pixels : List Pixel) (k seed : Nat) :
    (initCentroids pixels k seed).length = k := by
  simp [initCentroids]

theorem lloydGo_ok_shape {pixels : List Pixel} :
    ∀ {fuel : Nat} {cs : List Vec3} {prev : List Nat} {cs' : List Vec3}
      {ls' : List Nat},
      lloydGo pixels fuel cs prev = .ok (cs', ls') →
      cs'.length = cs.length ∧ ls' = assignStep cs' pixels := by
  intro fuel
  induction fuel with
  | zero =>
    intro cs prev cs' ls' h
    simp only [lloydGo, Except.ok.injEq, Prod.mk.injEq] at h
    obtain ⟨h1, h2⟩ := h
    subst h1
    subst h2
    exact ⟨rfl, rfl⟩
  | succ fuel ih =>
    intro cs prev cs' ls' h
    simp only [lloydGo] at h
    split at h
    · simp only [Except.ok.injEq, Prod.mk.injEq] at h
      obtain ⟨h1, h2⟩ := h
      subst h1
      subst h2
      exact ⟨rfl, rfl⟩
    · cases hu : updateStep pixels (assignStep cs pixels) cs <;>
        simp only [hu] at h
      · exact absurd h (by simp)
      · rcases ih h with ⟨ih1, ih2⟩
        exact ⟨ih1.trans (updateStep_ok_length hu), ih2⟩

theorem cluster_ok_spec {pixels : List Pixel} {k seed : Nat} {cs : List Vec3}
    {ls : List Nat} (h : cluster pixels k seed = .ok (cs, ls)) :
    pixels ≠ [] ∧ 1 ≤ k ∧ k ≤ pixels.length ∧ cs.length = k ∧
      ls = assignStep cs pixels := by
  unfold cluster at h
  by_cases he : pixels.isEmpty
  · rw [if_pos he] at h
    exact absurd h (by simp)
  · rw [if_neg he] at h
    by_cases hk : k < 1 ∨ pixels.length < k
    · rw [if_pos hk] at h
      exact absurd h (by simp)
    · rw [if_neg hk] at h
      push_neg at hk
      have hne : pixels ≠ [] := by simpa [List.isEmpty_iff] using he
      cases hu : updateStep pixels
          (assignStep (initCentroids pixels k seed) pixels)
          (initCentroids pixels k seed) <;> simp only [hu] at h
      · exact absurd h (by simp)
      · rcases lloydGo_ok_shape h with ⟨h1, h2⟩
        refine ⟨hne, by omega, by omega, ?_, h2⟩
        rw [h1, updateStep_ok_length hu, initCentroids_length]

/-! ## Bounds on the assignment labels -/

theorem foldl_nearest_bound {p : Vec3} {n : Nat} :
    ∀ {L : List (Nat × Vec3)} {init : Nat × Vec3},
      init.1 < n → (∀ x ∈ L, x.1 < n) →
      ((L.foldl
        (fun best ic => if dist2 p ic.2 < dist2 p best.2 then ic else best)
        init).1) < n := by
  intro L
  induction L with
  | nil =>
    intro init h _
    exact h
  | cons x xs ih =>
    intro init h hL
    simp only [List.foldl_cons]
    apply ih
    · dsimp only
      split
      · exact hL x (List.mem_cons_self _ _)
      · exact h
    · exact fun y hy => hL y (List.mem_cons_of_mem _ hy)

theorem nearestIdx_lt {cs : List Vec3} (p : Vec3) (h : cs ≠ []) :
    nearestIdx cs p < cs.length := by
  unfold nearestIdx
  apply foldl_nearest_bound
  · exact List.length_pos.mpr h
  · intro x hx
    rcases List.getElem?_eq_some.mp (List.mem_enum_iff_getElem?.mp hx) with
      ⟨hlt, _⟩
    exact hlt

theorem assignStep_length (cs : List Vec3) (pixels : List Pixel) :
    (assignStep cs pixels).length = pixels.length := by
  simp [assignStep]

theorem assignStep_mem_lt {cs : List Vec3} {pixels : List Pixel}
    (h : cs ≠ []) : ∀ l ∈ assignStep cs pixels, l < cs.length := by
  intro l hl
  rcases List.mem_map.mp hl with ⟨p, _, rfl⟩
  exact nearestIdx_lt _ h

/-! ## Summarizer length -/

theorem colorInfoList_length (colors : List Pixel) (labels : List Nat) :
    (colorInfoList colors labels).length = colors.length := by
  simp [colorInfoList]

theorem extractColorsCore_length (colors : List Pixel) (labels : List Nat) :
    (extractColorsCore colors labels).length = colors.length := by
  unfold extractColorsCore
  rw [(sortByFreqDesc_perm _).length_eq, colorInfoList_length]

theorem summarize_length (cs : List Vec3) (labels : List Nat) :
    (summarize cs labels).length = cs.length := by
  unfold summarize
  rw [extractColorsCore_length, List.length_map]

/-! ## A concrete fixed-point run, used to instantiate pipeline claims -/

theorem lloydGo_fix {pixels : List Pixel} {fuel : Nat} {cs : List Vec3}
    {prev : List Nat} (h : assignStep cs pixels = prev) :
    lloydGo pixels fuel cs prev = .ok (cs, prev) := by
  cases fuel
  · simp [lloydGo, h]
  · simp [lloydGo, h]

theorem cluster_single_black :
    cluster [((0:Nat), 0, 0)] 1 3 = .ok ([((0:ℚ), 0, 0)], [0]) := by
  have h0 : initCentroids [((0:Nat), 0, 0)] 1 3 = [((0:ℚ), 0, 0)] := by
    norm_num [initCentroids, toVec3, List.range, List.range.loop]
  have h1 : assignStep [((0:ℚ), 0, 0)] [((0:Nat), 0, 0)] = [0] := by
    norm_num [assignStep, nearestIdx, toVec3, List.enum, List.enumFrom, dist2]
  have h2 : updateStep [((0:Nat), 0, 0)] [0] [((0:ℚ), 0, 0)] =
      .ok [((0:ℚ), 0, 0)] := by
    norm_num [updateStep, centroidList, newCentroid, nonEmptyMeans, meanOf,
      assignedPixels, sumV, addV, smulV, toVec3, List.range, List.range.loop,
      List.count]
  unfold cluster
  rw [if_neg (by decide), if_neg (by decide), h0, h1, h2]
  exact lloydGo_fix h1

theorem extractPalette_single_black :
    extractPalette [((0:Nat), 0, 0)] 1 3 =
      .ok (summarize [((0:ℚ), 0, 0)] [0]) := by
  unfold extractPalette
  rw [cluster_single_black]
  rfl

/-! ## Claim theorems: ordering and count invariants -/

/-- C4: in every result list, a later record never has a larger frequency
than an earlier one, and any two records with equal frequency appear in
ascending order of their original cluster index. -/
theorem extractColors_ordering (colors : List Pixel) (labels : List Nat)
    (i j : Fin (extractColorsCore colors labels).length) (hij : i < j) :
    (((extractColorsCore colors labels).get j).frequency ≤
      ((extractColorsCore colors labels).get i).frequency) ∧
    (((extractColorsCore colors labels).get i).frequency =
        ((extractColorsCore colors labels).get j).frequency →
      ((extractColorsCore colors labels).get i).idx <
        ((extractColorsCore colors labels).get j).idx) :=
  List.pairwise_iff_get.mp
    (pairwise_sortByFreqDesc (pairwise_idx_colorInfoList colors labels))
    i j hij

/-- C4 witness: the ordering invariant applied to a concrete two-record
result. -/
theorem extractColors_ordering_witness :
    ∃ h : 1 < (extractColorsCore [((0:Nat), 0, 0), ((255:Nat), 255, 255)]
        [0, 1]).length,
      ((extractColorsCore [((0:Nat), 0, 0), ((255:Nat), 255, 255)]
          [0, 1]).get ⟨1, h⟩).frequency ≤
        ((extractColorsCore [((0:Nat), 0, 0), ((255:Nat), 255, 255)]
            [0, 1]).get
          ⟨0, Nat.lt_of_lt_of_le Nat.zero_lt_one (Nat.le_of_lt h)⟩).frequency := by
  have hlen : (extractColorsCore [((0:Nat), 0, 0), ((255:Nat), 255, 255)]
      [0, 1]).length = 2 := by
    rw [extractColorsCore_length]
    rfl
  refine ⟨by omega, ?_⟩
  exact (extractColors_ordering [((0:Nat), 0, 0), ((255:Nat), 255, 255)]
    [0, 1] ⟨0, by omega⟩ ⟨1, by omega⟩ Nat.zero_lt_one).1

/-- C5: for every valid `k` in `[1, distinct color count]`, a returned
record list has exactly `k` elements. -/
theorem extractPalette_count (pixels : List Pixel) (k seed : Nat)
    (res : List ColorInfo) (hk1 : 1 ≤ k)
    (hk2 : k ≤ distinctColorCount pixels)
    (h : extractPalette pixels k seed = .ok res) : res.length = k := by
  unfold extractPalette at h
  cases hc : cluster pixels k seed <;> rw [hc] at h
  · exact absurd h (by simp [Except.map])
  · rename_i r
    simp only [Except.map] at h
    injection h with h
    rcases cluster_ok_spec
        (show cluster pixels k seed = .ok (r.1, r.2) by rw [hc]) with
      ⟨_, _, _, h4, _⟩
    rw [← h, summarize_length, h4]

/-- C5 witness: the count invariant applied to a concrete single-color,
`k = 1` run of the pipeline. -/
theorem extractPalette_count_witness :
    (summarize [((0:ℚ), 0, 0)] [0]).length = 1 :=
  extractPalette_count [((0:Nat), 0, 0)] 1 3 _ (by decide) (by decide)
    extractPalette_single_black

/-! ## Frequency conservation -/

theorem range_map_sum (k : Nat) (f : Nat → ℚ) :
    ((List.range k).map f).sum = ∑ i ∈ Finset.range k, f i := by
  induction k with
  | zero => simp
  | succ k ih =>
    rw [List.range_succ, List.map_append, List.sum_append,
      Finset.sum_range_succ, ih]
    simp

theorem count_sum_of_bounded :
    ∀ {labels : List Nat} {k : Nat}, (∀ l ∈ labels, l < k) →
      (∑ i ∈ Finset.range k, labels.count i) = labels.length := by
  intro labels
  induction labels with
  | nil =>
    intro k _
    simp
  | cons a t ih =>
    intro k h
    have ha : a < k := h a (List.mem_cons_self _ _)
    have ht : ∀ l ∈ t, l < k := fun l hl => h l (List.mem_cons_of_mem _ hl)
    simp only [List.count_cons]
    rw [Finset.sum_add_distrib, ih ht]
    have hone : (∑ i ∈ Finset.range k, if a == i then 1 else 0) = 1 := by
      simp only [beq_iff_eq]
      rw [Finset.sum_ite_eq]
      simp [ha]
    rw [hone]
    simp

theorem sumFreq_colorInfoList {colors : List Pixel} {labels : List Nat}
    (hb : ∀ l ∈ labels, l < colors.length) (hn : labels ≠ []) :
    sumFreq (colorInfoList colors labels) = 100 := by
  unfold sumFreq colorInfoList
  rw [List.map_map]
  have hcomp : (ColorInfo.frequency ∘ fun ic : Nat × Pixel =>
      ColorInfo.mk ic.1 ic.2 (rgb_to_hex ic.2)
        ((labels.count ic.1 : ℚ) / (labels.length : ℚ) * 100)) =
      (fun i : Nat => (labels.count i : ℚ) / (labels.length : ℚ) * 100) ∘
        Prod.fst := rfl
  rw [hcomp, ← List.map_map, List.enum_map_fst, range_map_sum]
  have hlen : (labels.length : ℚ) ≠ 0 := by
    simpa using fun hh => hn (List.length_eq_zero.mp hh)
  calc (∑ i ∈ Finset.range colors.length,
        (labels.count i : ℚ) / (labels.length : ℚ) * 100)
      = (∑ i ∈ Finset.range colors.length, (labels.count i : ℚ)) *
          (100 / (labels.length : ℚ)) := by
        rw [Finset.sum_mul]
        exact Finset.sum_congr rfl (fun i _ => by ring)
    _ = (labels.length : ℚ) * (100 / (labels.length : ℚ)) := by
        rw [← Nat.cast_sum, count_sum_of_bounded hb]
    _ = 100 := by
        field_simp

theorem sumFreq_sort (l : List ColorInfo) :
    sumFreq (sortByFreqDesc l) = sumFreq l :=
  ((sortByFreqDesc_perm l).map ColorInfo.frequency).sum_eq

/-- C3: for every valid input (non-empty pixels, `1 ≤ k ≤ pixel count`), the
frequencies of a returned record list sum to exactly 100 (in the exact
rational model; in particular the sum is within the claimed 0.01
tolerance of 100). -/
theorem extractPalette_frequency_conservation (pixels : List Pixel)
    (k seed : Nat) (res : List ColorInfo) (h0 : pixels ≠ [])
    (hk1 : 1 ≤ k) (hk2 : k ≤ pixels.length)
    (h : extractPalette pixels k seed = .ok res) : sumFreq res = 100 := by
  unfold extractPalette at h
  cases hc : cluster pixels k seed <;> rw [hc] at h
  · exact absurd h (by simp [Except.map])
  · rename_i r
    simp only [Except.map] at h
    injection h with h
    rcases cluster_ok_spec
        (show cluster pixels k seed = .ok (r.1, r.2) by rw [hc]) with
      ⟨_, _, _, h4, h5⟩
    have hcs : r.1 ≠ [] := by
      intro hh
      rw [hh] at h4
      simp at h4
      omega
    rw [← h]
    unfold summarize extractColorsCore
    rw [sumFreq_sort]
    apply sumFreq_colorInfoList
    · intro l hl
      rw [List.length_map]
      exact assignStep_mem_lt hcs l (h5 ▸ hl)
    · intro hh
      have hal := assignStep_length r.1 pixels
      rw [← h5, hh] at hal
      exact h0 (List.length_eq_zero.mp hal.symm)

/-- C3 witness: frequency conservation on a concrete pipeline run. -/
theorem extractPalette_frequency_conservation_witness :
    sumFreq (summarize [((0:ℚ), 0, 0)] [0]) = 100 :=
  extractPalette_frequency_conservation [((0:Nat), 0, 0)] 1 3 _
    (by decide) (by decide) (by decide) extractPalette_single_black

/-! ## Hex rendering and parsing -/

set_option maxRecDepth 4000 in
theorem format02x_eq : ∀ n, n < 256 →
    format02x n = [Nat.digitChar (n / 16), Nat.digitChar (n % 16)] := by
  decide

theorem hexCharVal_digitChar : ∀ d, d < 16 →
    hexCharVal (Nat.digitChar d) = some d := by
  decide

theorem isLowerHexDigit_digitChar : ∀ d, d < 16 →
    isLowerHexDigit (Nat.digitChar d) = true := by
  decide

theorem rgb_to_hex_data (r g b : Nat) (hr : r < 256) (hg : g < 256)
    (hb : b < 256) :
    (rgb_to_hex (r, g, b)).data =
      ['#', Nat.digitChar (r / 16), Nat.digitChar (r % 16),
        Nat.digitChar (g / 16), Nat.digitChar (g % 16),
        Nat.digitChar (b / 16), Nat.digitChar (b % 16)] := by
  unfold rgb_to_hex
  dsimp only
  rw [format02x_eq r hr, format02x_eq g hg, format02x_eq b hb]
  rfl

theorem parse_rgb_to_hex {p : Pixel} (h1 : p.1 < 256) (h2 : p.2.1 < 256)
    (h3 : p.2.2 < 256) : parseHexColor (rgb_to_hex p) = some p := by
  obtain ⟨r, g, b⟩ := p
  dsimp only at h1 h2 h3
  have hmatch : parseHexColor (rgb_to_hex (r, g, b)) =
      match hexCharVal (Nat.digitChar (r / 16)),
          hexCharVal (Nat.digitChar (r % 16)),
          hexCharVal (Nat.digitChar (g / 16)),
          hexCharVal (Nat.digitChar (g % 16)),
          hexCharVal (Nat.digitChar (b / 16)),
          hexCharVal (Nat.digitChar (b % 16)) with
      | some v1, some v2, some v3, some v4, some v5, some v6 =>
        some (v1 * 16 + v2, v3 * 16 + v4, v5 * 16 + v6)
      | _, _, _, _, _, _ => none := by
    unfold parseHexColor
    rw [rgb_to_hex_data r g b h1 h2 h3]
    rfl
  rw [hmatch, hexCharVal_digitChar (r / 16) (by omega),
    hexCharVal_digitChar (r % 16) (by omega),
    hexCharVal_digitChar (g / 16) (by omega),
    hexCharVal_digitChar (g % 16) (by omega),
    hexCharVal_digitChar (b / 16) (by omega),
    hexCharVal_digitChar (b % 16) (by omega)]
  show some (r / 16 * 16 + r % 16, g / 16 * 16 + g % 16,
    b / 16 * 16 + b % 16) = some (r, g, b)
  refine congrArg some ?_
  refine Prod.ext ?_ (Prod.ext ?_ ?_) <;> dsimp only <;> omega

theorem isHexPattern_rgb_to_hex {p : Pixel} (h1 : p.1 < 256)
    (h2 : p.2.1 < 256) (h3 : p.2.2 < 256) :
    isHexPattern (rgb_to_hex p) = true := by
  obtain ⟨r, g, b⟩ := p
  dsimp only at h1 h2 h3
  have d1 := isLowerHexDigit_digitChar (r / 16) (by omega)
  have d2 := isLowerHexDigit_digitChar (r % 16) (by omega)
  have d3 := isLowerHexDigit_digitChar (g / 16) (by omega)
  have d4 := isLowerHexDigit_digitChar (g % 16) (by omega)
  have d5 := isLowerHexDigit_digitChar (b / 16) (by omega)
  have d6 := isLowerHexDigit_digitChar (b % 16) (by omega)
  unfold isHexPattern
  rw [rgb_to_hex_data r g b h1 h2 h3]
  simp [d1, d2, d3, d4, d5, d6]

/-- Membership in the summarizer output determines the `rgb` and `hex`
fields: the color is one of the input colors and the hex string is its
`rgb_to_hex` rendering. -/
theorem mem_extractColorsCore {colors : List Pixel} {labels : List Nat}
    {r : ColorInfo} (hr : r ∈ extractColorsCore colors labels) :
    r.rgb ∈ colors ∧ r.hex = rgb_to_hex r.rgb := by
  have hr' : r ∈ colorInfoList colors labels :=
    (sortByFreqDesc_perm _).subset hr
  unfold colorInfoList at hr'
  rcases List.mem_map.mp hr' with ⟨ic, hic, rfl⟩
  refine ⟨?_, rfl⟩
  have hget := List.mem_enum_iff_getElem?.mp hic
  rcases List.getElem?_eq_some.mp hget with ⟨hlt, hval⟩
  have hmem2 : colors.get ⟨ic.1, hlt⟩ ∈ colors := List.get_mem colors ic.1 hlt
  have heq : colors.get ⟨ic.1, hlt⟩ = ic.2 := hval
  exact heq ▸ hmem2

/-- C6: every record of a result whose input colors are 8-bit has a `hex`
field matching `#[0-9a-f]{6}`, and parsing that hex string back yields
exactly the record's `rgb` triple. -/
theorem extractColors_hex_roundtrip (colors : List Pixel)
    (labels : List Nat) (r : ColorInfo)
    (hmem : r ∈ extractColorsCore colors labels)
    (hbound : ∀ c ∈ colors, c.1 < 256 ∧ c.2.1 < 256 ∧ c.2.2 < 256) :
    isHexPattern r.hex = true ∧ parseHexColor r.hex = some r.rgb := by
  rcases mem_extractColorsCore hmem with ⟨hc, hhex⟩
  rcases hbound r.rgb hc with ⟨h1, h2, h3⟩
  rw [hhex]
  exact ⟨isHexPattern_rgb_to_hex h1 h2 h3, parse_rgb_to_hex h1 h2 h3⟩

/-- C6 witness: the hex round-trip on the record of a concrete run. -/
theorem extractColors_hex_roundtrip_witness :
    isHexPattern ((extractColorsCore [((255:Nat), 128, 7)] [0]).headD
        (ColorInfo.mk 0 (0, 0, 0) "" 0)).hex = true ∧
      parseHexColor ((extractColorsCore [((255:Nat), 128, 7)] [0]).headD
        (ColorInfo.mk 0 (0, 0, 0) "" 0)).hex =
        some ((extractColorsCore [((255:Nat), 128, 7)] [0]).headD
          (ColorInfo.mk 0 (0, 0, 0) "" 0)).rgb := by
  have hne : extractColorsCore [((255:Nat), 128, 7)] [0] ≠ [] := by
    intro hh
    have hl := extractColorsCore_length [((255:Nat), 128, 7)] [0]
    rw [hh] at hl
    simp at hl
  have hmem : (extractColorsCore [((255:Nat), 128, 7)] [0]).headD
      (ColorInfo.mk 0 (0, 0, 0) "" 0) ∈
      extractColorsCore [((255:Nat), 128, 7)] [0] := by
    cases hl : extractColorsCore [((255:Nat), 128, 7)] [0] with
    | nil => exact absurd hl hne
    | cons a t => exact List.mem_cons_self a t
  exact extractColors_hex_roundtrip [((255:Nat), 128, 7)] [0] _ hmem
    (by decide)

/-! ## Truncation of centroids (the `astype(int)` conversion) -/

theorem cluster_quarter :
    cluster [((0:Nat), 0, 0), ((1:Nat), 1, 1), ((1:Nat), 1, 1),
        ((1:Nat), 1, 1)] 1 0 =
      .ok ([((3:ℚ)/4, 3/4, 3/4)], [0, 0, 0, 0]) := by
  have h0 : initCentroids [((0:Nat), 0, 0), ((1:Nat), 1, 1), ((1:Nat), 1, 1),
      ((1:Nat), 1, 1)] 1 0 = [((0:ℚ), 0, 0)] := by
    norm_num [initCentroids, toVec3, List.range, List.range.loop]
  have h1 : assignStep [((0:ℚ), 0, 0)] [((0:Nat), 0, 0), ((1:Nat), 1, 1),
      ((1:Nat), 1, 1), ((1:Nat), 1, 1)] = [0, 0, 0, 0] := by
    norm_num [assignStep, nearestIdx, toVec3, List.enum, List.enumFrom, dist2]
  have h3 : assignStep [((3:ℚ)/4, 3/4, 3/4)] [((0:Nat), 0, 0),
      ((1:Nat), 1, 1), ((1:Nat), 1, 1), ((1:Nat), 1, 1)] = [0, 0, 0, 0] := by
    norm_num [assignStep, nearestIdx, toVec3, List.enum, List.enumFrom, dist2]
  have h2 : updateStep [((0:Nat), 0, 0), ((1:Nat), 1, 1), ((1:Nat), 1, 1),
      ((1:Nat), 1, 1)] [0, 0, 0, 0] [((0:ℚ), 0, 0)] =
      .ok [((3:ℚ)/4, 3/4, 3/4)] := by
    norm_num [updateStep, centroidList, newCentroid, nonEmptyMeans, meanOf,
      assignedPixels, sumV, addV, smulV, toVec3, List.range, List.range.loop,
      List.count]
  unfold cluster
  rw [if_neg (by decide), if_neg (by decide), h0, h1, h2]
  exact lloydGo_fix h3

theorem centroidToIntColor_quarter :
    centroidToIntColor ((3:ℚ)/4, 3/4, 3/4) = (0, 0, 0) := by
  have hf : (⌊(3:ℚ)/4⌋) = 0 := by norm_num [Int.floor_eq_iff]
  unfold centroidToIntColor
  dsimp only
  rw [hf]
  rfl

/-- C7 counterexample: on the valid input of one black pixel and three
`(1,1,1)` pixels with `k = 1`, the final centroid is `(3/4, 3/4, 3/4)`;
the produced record has rgb `(0,0,0)` (truncation toward zero), while the
nearest integer to `3/4` is `1` under both admissible tie rules (half away
from zero, half to even) — so no consistently applied nearest-integer
rounding yields the record's channels. -/
theorem centroid_rounding_counterexample :
    cluster [((0:Nat), 0, 0), ((1:Nat), 1, 1), ((1:Nat), 1, 1),
        ((1:Nat), 1, 1)] 1 0 =
      .ok ([((3:ℚ)/4, 3/4, 3/4)], [0, 0, 0, 0]) ∧
    (summarize [((3:ℚ)/4, 3/4, 3/4)] [0, 0, 0, 0]).map ColorInfo.rgb =
      [((0:Nat), 0, 0)] ∧
    roundHalfAwayFromZero ((3:ℚ)/4) = 1 ∧
    roundHalfToEven ((3:ℚ)/4) = 1 := by
  refine ⟨cluster_quarter, ?_, ?_, ?_⟩
  · simp [summarize, extractColorsCore, colorInfoList, sortByFreqDesc,
      insertByFreq, List.enum, List.enumFrom, centroidToIntColor_quarter]
  · rw [roundHalfAwayFromZero, if_pos (by norm_num)]
    norm_num [Int.floor_eq_iff]
  · rw [roundHalfToEven]
    have hf : (⌊(3:ℚ)/4⌋) = 0 := by norm_num [Int.floor_eq_iff]
    rw [hf]
    norm_num

/-- C7 (amended): each channel of a record's rgb triple is obtained from
the corresponding final centroid by truncation toward zero (the floor, on
these nonnegative values) — not by rounding to the nearest integer. -/
theorem summarize_rgb_truncation (cs : List Vec3) (labels : List Nat)
    (r : ColorInfo) (hr : r ∈ summarize cs labels) :
    ∃ c, cs[r.idx]? = some c ∧ r.rgb = centroidToIntColor c := by
  have hr' : r ∈ colorInfoList (cs.map centroidToIntColor) labels :=
    (sortByFreqDesc_perm _).subset hr
  unfold colorInfoList at hr'
  rcases List.mem_map.mp hr' with ⟨ic, hic, rfl⟩
  have hget := List.mem_enum_iff_getElem?.mp hic
  rw [List.getElem?_map] at hget
  cases hcs : cs[ic.1]? with
  | none =>
    rw [hcs] at hget
    exact absurd hget (by simp)
  | some c =>
    rw [hcs] at hget
    simp only [Option.map_some', Option.some.injEq] at hget
    exact ⟨c, rfl, hget.symm⟩

/-- C7 witness (amended): the truncation relation on the record of a
concrete run. -/
theorem summarize_rgb_truncation_witness :
    ∃ c, (([((3:ℚ)/4, 3/4, 3/4)] :
        List Vec3)[((summarize [((3:ℚ)/4, 3/4, 3/4)] [0, 0, 0, 0]).headD
          (ColorInfo.mk 0 (0, 0, 0) "" 0)).idx]?) = some c ∧
      ((summarize [((3:ℚ)/4, 3/4, 3/4)] [0, 0, 0, 0]).headD
        (ColorInfo.mk 0 (0, 0, 0) "" 0)).rgb = centroidToIntColor c := by
  have hne : summarize [((3:ℚ)/4, 3/4, 3/4)] [0, 0, 0, 0] ≠ [] := by
    intro hh
    have hl := summarize_length [((3:ℚ)/4, 3/4, 3/4)] [0, 0, 0, 0]
    rw [hh] at hl
    simp at hl
  have hmem : (summarize [((3:ℚ)/4, 3/4, 3/4)] [0, 0, 0, 0]).headD
      (ColorInfo.mk 0 (0, 0, 0) "" 0) ∈
      summarize [((3:ℚ)/4, 3/4, 3/4)] [0, 0, 0, 0] := by
    cases hl : summarize [((3:ℚ)/4, 3/4, 3/4)] [0, 0, 0, 0] with
    | nil => exact absurd hl hne
    | cons a t => exact List.mem_cons_self a t
  exact summarize_rgb_truncation [((3:ℚ)/4, 3/4, 3/4)] [0, 0, 0, 0] _ hmem

/-! ## Single-color inputs -/

theorem centroidToIntColor_toVec3 (p : Pixel) :
    centroidToIntColor (toVec3 p) = p := by
  obtain ⟨a, b, c⟩ := p
  simp [centroidToIntColor, toVec3, Int.floor_natCast, Int.toNat_natCast]

theorem nearestIdx_single (v : Vec3) (p : Vec3) : nearestIdx [v] p = 0 := by
  simp [nearestIdx, List.enum, List.enumFrom, ite_self]

theorem assignStep_single (v : Vec3) (ps : List Pixel) :
    assignStep [v] ps = List.replicate ps.length 0 := by
  unfold assignStep
  rw [show (fun p : Pixel => nearestIdx [v] (toVec3 p)) = fun _ => 0 from
    funext (fun p => nearestIdx_single v (toVec3 p)), List.map_const']

theorem sumV_replicate (n : Nat) (v : Vec3) :
    sumV (List.replicate n v) = smulV (n : ℚ) v := by
  induction n with
  | zero => simp [sumV, smulV, Prod.ext_iff]
  | succ n ih =>
    rw [List.replicate_succ]
    show addV v (sumV (List.replicate n v)) = smulV ((n + 1 : Nat) : ℚ) v
    rw [ih]
    simp only [addV, smulV, Prod.ext_iff]
    refine ⟨?_, ?_, ?_⟩ <;> push_cast <;> ring

theorem assignedPixels_replicate (n : Nat) (c : Pixel) :
    assignedPixels (List.replicate n c) (List.replicate n 0) 0 =
      List.replicate n c := by
  unfold assignedPixels
  rw [List.zip_replicate, Nat.min_self, List.filter_replicate,
    if_pos (show ((c, (0:Nat)).2 == 0) = true from rfl), List.map_replicate]

theorem meanOf_replicate (n : Nat) (c : Pixel) (hn : 0 < n) :
    meanOf (List.replicate n c) (List.replicate n 0) 0 = toVec3 c := by
  have hn' : ((n:ℚ)) ≠ 0 := Nat.cast_ne_zero.mpr (by omega)
  unfold meanOf
  rw [assignedPixels_replicate, List.map_replicate, List.length_replicate,
    sumV_replicate]
  simp only [smulV, Prod.ext_iff]
  refine ⟨?_, ?_, ?_⟩ <;> rw [← mul_assoc, one_div, inv_mul_cancel₀ hn',
    one_mul]

theorem updateStep_replicate (n : Nat) (c : Pixel) (hn : 0 < n) :
    updateStep (List.replicate n c) (List.replicate n 0) [toVec3 c] =
      .ok [toVec3 c] := by
  have h1 : newCentroid (List.replicate n c) (List.replicate n 0)
      (nonEmptyMeans (List.replicate n c) (List.replicate n 0)
        [toVec3 c].length) 0 =
      .ok (toVec3 c) := by
    unfold newCentroid
    rw [List.count_replicate_self, if_pos hn, meanOf_replicate n c hn]
  show centroidList _ _ _ (List.range [toVec3 c].length) = .ok [toVec3 c]
  rw [show List.range [toVec3 c].length = [0] from rfl]
  unfold centroidList
  rw [h1]
  rfl

theorem initCentroids_replicate (n seed : Nat) (c : Pixel) (hn : 0 < n) :
    initCentroids (List.replicate n c) 1 seed = [toVec3 c] := by
  unfold initCentroids
  rw [show List.range 1 = [0] from rfl]
  simp only [List.map_cons, List.map_nil, List.length_replicate]
  have hgd : (List.replicate n c).getD ((seed + 0) % n) (0, 0, 0) = c := by
    rw [List.getD_eq_getElem?_getD, List.getElem?_replicate,
      if_pos (Nat.mod_lt _ hn)]
    rfl
  rw [hgd]

theorem cluster_replicate (n : Nat) (c : Pixel) (seed : Nat) (hn : 0 < n) :
    cluster (List.replicate n c) 1 seed =
      .ok ([toVec3 c], List.replicate n 0) := by
  have hi := initCentroids_replicate n seed c hn
  have ha : assignStep [toVec3 c] (List.replicate n c) =
      List.replicate n 0 := by
    rw [assignStep_single, List.length_replicate]
  have hu := updateStep_replicate n c hn
  unfold cluster
  rw [if_neg (by simp [List.isEmpty_iff, List.replicate_eq_nil_iff]; omega),
    if_neg (by simp only [List.length_replicate]; omega), hi, ha, hu]
  exact lloydGo_fix ha

theorem summarize_single (c : Pixel) (n : Nat) (hn : 0 < n) :
    summarize [toVec3 c] (List.replicate n 0) =
      [ColorInfo.mk 0 c (rgb_to_hex c) 100] := by
  unfold summarize extractColorsCore colorInfoList
  rw [List.map_cons, List.map_nil, centroidToIntColor_toVec3]
  show sortByFreqDesc [ColorInfo.mk 0 c (rgb_to_hex c)
    (((List.replicate n (0:Nat)).count 0 : ℚ) /
      ((List.replicate n (0:Nat)).length : ℚ) * 100)] = _
  rw [List.count_replicate_self, List.length_replicate]
  have hfreq : ((n:ℚ)) / ((n:ℚ)) * 100 = 100 := by
    rw [div_self (Nat.cast_ne_zero.mpr (by omega)), one_mul]
  rw [hfreq]
  rfl

/-- C8: on any non-empty all-identical-pixel input, clustering with `k = 1`
followed by summarization yields exactly one record, with frequency `100`
and rgb equal to the input color. -/
theorem extractPalette_single_color (c : Pixel) (n seed : Nat)
    (hn : 0 < n) :
    extractPalette (List.replicate n c) 1 seed =
      .ok [ColorInfo.mk 0 c (rgb_to_hex c) 100] := by
  unfold extractPalette
  rw [cluster_replicate n c seed hn]
  show Except.ok (summarize [toVec3 c] (List.replicate n 0)) = _
  rw [summarize_single c n hn]

/-- C8 witness: the single-color property at a concrete input. -/
theorem extractPalette_single_color_witness :
    extractPalette (List.replicate 3 ((5:Nat), 5, 5)) 1 0 =
      .ok [ColorInfo.mk 0 ((5:Nat), 5, 5) (rgb_to_hex ((5:Nat), 5, 5)) 100] :=
  extractPalette_single_color ((5:Nat), 5, 5) 3 0 (by decide)

end ColorExtractorRepo
